import Mathlib

set_option maxRecDepth 100000

/-!
Formal model of the article-scraper service in `src/flask_app.py`.

The Python source is shallowly embedded: pure helpers (`clean_text`,
`extract_metadata`, URL parsing) are translated to executable Lean
functions over `List Char` / `String`; the six scraping strategies and
the Flask `scrape` handler are modelled as functions of their external
inputs (library outputs, HTTP fetch outcomes), which are passed in as
explicit data.  External collaborators (newspaper3k, trafilatura,
readability, selenium, BeautifulSoup parse trees, the HTTP client) are
represented at their interface boundary only.
-/

/-! ## Whitespace and stripping (Python `\s`, `str.strip`) -/

/-- ASCII whitespace recognized by Python's regex `\s` and `str.strip`. -/
def isSpaceChar (c : Char) : Bool :=
  c = ' ' || c = '\t' || c = '\n' || c = '\r' || c = '\x0b' || c = '\x0c'

/-- Drop trailing whitespace characters. -/
def dropTrailWs (l : List Char) : List Char :=
  (l.reverse.dropWhile isSpaceChar).reverse

/-- Python `str.strip()` on a character list. -/
def stripChars (l : List Char) : List Char :=
  dropTrailWs (l.dropWhile isSpaceChar)

/-- Python `str.strip()` on a string. -/
def stripStr (s : String) : String :=
  String.mk (stripChars s.toList)

/-- One pass of `re.sub(r'\s+', ' ', text)`: the boolean records whether the
previous character was part of a whitespace run already collapsed. -/
def collapseAux : Bool → List Char → List Char
  | _, [] => []
  | b, c :: cs =>
    if isSpaceChar c then
      if b then collapseAux true cs else ' ' :: collapseAux true cs
    else c :: collapseAux false cs

/-- The `re.sub(r'\s+', ' ', text)`: collapse each whitespace run to one space. -/
def collapseList (l : List Char) : List Char :=
  collapseAux false l

/-! ## Boilerplate phrase removal (`clean_text`, flask_app.py lines 190-198) -/

/-- The boilerplate alternation of `clean_text`:
`(Accept all cookies|Subscribe to newsletter|Sign up|Login|Register)`. -/
def phraseLists : List (List Char) :=
  ["Accept all cookies".toList, "Subscribe to newsletter".toList,
   "Sign up".toList, "Login".toList, "Register".toList]

/-- Case-insensitive prefix match of a phrase against a character list,
modelling `re.I` matching of a literal phrase at the current position. -/
def matchCI : List Char → List Char → Bool
  | [], _ => true
  | _ :: _, [] => false
  | p :: ps, c :: cs => (p.toLower == c.toLower) && matchCI ps cs

/-- First alternation branch (in source order) matching at the head of `l`,
as Python's `re` tries alternatives left to right. -/
def firstPhraseAt (l : List Char) : Option (List Char) :=
  phraseLists.find? (fun p => matchCI p l)

theorem phrase_pos : ∀ p ∈ phraseLists, 0 < p.length := by decide

/-- Fuel-driven worker for `removePhrases`; every phrase is non-empty, so
each step consumes at least one character and fuel `l.length` never runs
out (the `0` fallback is unreachable when the fuel is the list length). -/
def removePhrasesAux : Nat → List Char → List Char
  | _, [] => []
  | 0, l => l
  | fuel + 1, c :: cs =>
    match firstPhraseAt (c :: cs) with
    | some p => removePhrasesAux fuel (List.drop p.length (c :: cs))
    | none => c :: removePhrasesAux fuel cs

/-- The `re.sub(phrases, '', text, flags=re.I)`: scan left to right, deleting each
leftmost phrase occurrence and resuming after it. -/
def removePhrases (l : List Char) : List Char :=
  removePhrasesAux l.length l

/-- The `clean_text` (flask_app.py lines 190-198): empty-guard, collapse
whitespace runs, remove boilerplate phrases case-insensitively, strip. -/
def clean_text (s : String) : String :=
  if s = "" then ""
  else String.mk (stripChars (removePhrases (collapseList s.toList)))

/-- Whether some boilerplate phrase occurs (case-insensitively) anywhere. -/
def containsPhraseB (z : List Char) : Bool :=
  z.tails.any (fun t => (firstPhraseAt t).isSome)

/-- The `text[:500] + '...' if len(text) > 500 else text` (summary truncation). -/
def truncate500 (t : String) : String :=
  if 500 < t.length then String.mk (t.toList.take 500) ++ "..." else t

/-! ## URL parsing and joining (`urllib.parse.urlparse` / `urljoin`),
modelled at the interface the source uses: scheme/netloc extraction for
validation, and resolution of relative references for `urljoin`. -/

structure ParsedUrl where
  scheme : String
  netloc : String
  path : String
deriving DecidableEq, Repr

/-- Characters allowed in a URL scheme after the leading letter. -/
def schemeChar (c : Char) : Bool :=
  c.isAlphanum || c = '+' || c = '-' || c = '.'

/-- A valid scheme is non-empty, starts with a letter, and uses scheme
characters only. -/
def validScheme : List Char → Bool
  | [] => false
  | c :: cs => c.isAlpha && cs.all schemeChar

/-- Split a character list at its first `':'`, if any. -/
def splitAtColon : List Char → Option (List Char × List Char)
  | [] => none
  | c :: cs =>
    if c = ':' then some ([], cs)
    else match splitAtColon cs with
      | some (before, after) => some (c :: before, after)
      | none => none

/-- Whether a string starts with `"//"` (kernel-reducible `startswith`). -/
def beginsSlashSlash (s : String) : Bool :=
  match s.toList with
  | '/' :: '/' :: _ => true
  | _ => false

/-- Whether a string starts with `"/"` (kernel-reducible `startswith`). -/
def beginsSlash (s : String) : Bool :=
  match s.toList with
  | '/' :: _ => true
  | _ => false

/-- Worker for `splitComma`; the accumulator holds the current field
reversed. -/
def splitCommaAux : List Char → List Char → List String
  | acc, [] => [String.mk acc.reverse]
  | acc, c :: cs =>
    if c = ',' then String.mk acc.reverse :: splitCommaAux [] cs
    else splitCommaAux (c :: acc) cs

/-- Python `str.split(',')` (note `"".split(',') == ['']`). -/
def splitComma (s : String) : List String :=
  splitCommaAux [] s.toList

/-- The `urllib.parse.urlparse`, restricted to the `scheme`/`netloc`/`path`
components the source reads: the prefix before the first `':'` is the
scheme when well-formed (lower-cased, as in CPython), and a netloc is
present exactly when the remainder starts with `//`. -/
def urlparse (s : String) : ParsedUrl :=
  let p :=
    match splitAtColon s.toList with
    | some (before, after) =>
      if validScheme before then (String.mk (before.map Char.toLower), String.mk after)
      else ("", s)
    | none => ("", s)
  let scheme := p.1
  let rest := p.2
  if beginsSlashSlash rest then
    let after := (rest.toList.drop 2)
    let netloc := after.takeWhile (fun c => !(c == '/') && !(c == '?') && !(c == '#'))
    { scheme := scheme, netloc := String.mk netloc,
      path := String.mk (after.drop netloc.length) }
  else
    { scheme := scheme, netloc := "", path := rest }

/-- The base path up to and including its last `'/'` (used when resolving a
relative reference that does not start with `'/'`); an authority with an
empty path contributes `"/"`. -/
def dirOfPath (p : String) : String :=
  let d := String.mk ((p.toList.reverse.dropWhile (fun c => !(c == '/'))).reverse)
  if d = "" then "/" else d

/-- The `urllib.parse.urljoin(base, rel)` for the reference shapes the source
produces: absolute references, network-path (`//…`), absolute-path
(`/…`), empty, and plain relative references. -/
def urljoin (base rel : String) : String :=
  let pb := urlparse base
  let pr := urlparse rel
  if pr.scheme ≠ "" then rel
  else if beginsSlashSlash rel then pb.scheme ++ ":" ++ rel
  else if rel = "" then base
  else if beginsSlash rel then pb.scheme ++ "://" ++ pb.netloc ++ rel
  else pb.scheme ++ "://" ++ pb.netloc ++ dirOfPath pb.path ++ rel

/-! ## Parsed documents (BeautifulSoup parse trees at the interface used by
`extract_metadata`): a document is its elements in document order, each
with tag, attributes and visible text. -/

structure Elem where
  tag : String
  attrs : List (String × String)
  text : String
deriving DecidableEq, Repr

abbrev Doc := List Elem

/-- The `elem.get(key)`: first attribute with the given name, if any. -/
def getAttr (e : Elem) (k : String) : Option String :=
  (e.attrs.find? (fun p => p.1 == k)).map (fun p => p.2)

/-- Case-insensitive substring containment, modelling `re.search` of a
literal word with `re.I` against an attribute value. -/
def containsCI (hay pat : String) : Bool :=
  let h := hay.toList.map Char.toLower
  let p := pat.toList.map Char.toLower
  h.tails.any (fun t => p.isPrefixOf t)

/-- The `soup.find(tag, ...)` with an exact attribute value. -/
def findTagAttr (d : Doc) (tag attr val : String) : Option Elem :=
  d.find? (fun e => e.tag == tag && getAttr e attr == some val)

/-- The `soup.find('meta', property=v)`. -/
def findMetaProp (d : Doc) (v : String) : Option Elem :=
  findTagAttr d "meta" "property" v

/-- The `soup.find('meta', attrs={'name': v})`. -/
def findMetaName (d : Doc) (v : String) : Option Elem :=
  findTagAttr d "meta" "name" v

/-- The `soup.find(tag)`. -/
def findTag (d : Doc) (tag : String) : Option Elem :=
  d.find? (fun e => e.tag == tag)

/-- Python `a or b` for an optional string `a` (both `None` and `''` are
falsy) and a string fallback `b`. -/
def pyOr (a : Option String) (b : String) : String :=
  match a with
  | some s => if s = "" then b else s
  | none => b

/-- The `candidate.get('content') or candidate.text.strip()` — the value read
from a matched element throughout `extract_metadata`. -/
def elemVal (e : Elem) : String :=
  pyOr (getAttr e "content") (stripStr e.text)

/-! ## Metadata Extractor (`extract_metadata`, flask_app.py lines 80-175) -/

structure Metadata where
  title : Option String
  authors : List String
  publish_date : Option String
  description : Option String
  keywords : List String
  images : List (Option String)
  canonical_url : Option String
  site_name : Option String
  language : Option String
deriving DecidableEq, Repr

/-- Title candidates in source order: `og:title` meta, `twitter:title`
meta, first `<h1>`, `<title>` (flask_app.py lines 95-100). -/
def titleCandidates (d : Doc) : List (Option Elem) :=
  [findMetaProp d "og:title", findMetaName d "twitter:title",
   findTag d "h1", findTag d "title"]

/-- The title loop (lines 101-104): it breaks at the first candidate
element that exists and stores that element's value. -/
def titleOf (d : Doc) : Option String :=
  (((titleCandidates d).filterMap id).head?).map elemVal

/-- The `class` attribute matching `re.compile(r'author|byline', re.I)`. -/
def authorClass (e : Elem) : Bool :=
  match getAttr e "class" with
  | some c => containsCI c "author" || containsCI c "byline"
  | none => false

/-- The seven author selectors of lines 107-115, in source order. -/
def authorSelectors : List (Elem → Bool) :=
  [fun e => e.tag == "meta" && getAttr e "name" == some "author",
   fun e => e.tag == "meta" && getAttr e "property" == some "article:author",
   fun e => e.tag == "meta" && getAttr e "name" == some "article:author",
   fun e => e.tag == "span" && authorClass e,
   fun e => e.tag == "div" && authorClass e,
   fun e => e.tag == "a" && getAttr e "rel" == some "author",
   fun e => e.tag == "p" && authorClass e]

/-- Loop body of lines 118-121: append a matched element's value when it
is non-empty and not already collected. -/
def authorStep (acc : List String) (e : Elem) : List String :=
  let a := elemVal e
  if a ≠ "" ∧ a ∉ acc then acc ++ [a] else acc

/-- All elements matched by the author selectors, selector by selector in
source order (`find_all` per selector, lines 116-117). -/
def authorElems (d : Doc) : List Elem :=
  (authorSelectors.map (fun p => d.filter p)).foldr (fun a b => a ++ b) []

/-- The accumulated, deduplicated author list (lines 106-121). -/
def authorsOf (d : Doc) : List String :=
  (authorElems d).foldl authorStep []

/-- The `class` attribute matching `re.compile(r'date|published', re.I)`. -/
def dateClass (e : Elem) : Bool :=
  match getAttr e "class" with
  | some c => containsCI c "date" || containsCI c "published"
  | none => false

/-- The five publish-date selectors of lines 124-130, in source order. -/
def dateSelectors : List (Elem → Bool) :=
  [fun e => e.tag == "meta" && getAttr e "property" == some "article:published_time",
   fun e => e.tag == "meta" && getAttr e "name" == some "publish_date",
   fun e => e.tag == "meta" && getAttr e "name" == some "date",
   fun e => e.tag == "time" && (getAttr e "datetime").isSome,
   fun e => e.tag == "span" && dateClass e]

/-- The `elem.get('content') or elem.get('datetime') or elem.text.strip()`. -/
def dateVal (e : Elem) : String :=
  pyOr (getAttr e "content") (pyOr (getAttr e "datetime") (stripStr e.text))

/-- The publish-date loop (lines 131-135): first selector with a match
wins. -/
def dateOf (d : Doc) : Option String :=
  (((dateSelectors.map (fun p => d.find? p)).filterMap id).head?).map dateVal

/-- Description (lines 138-140): `description` meta, else `og:description`
meta; the stored value is the element's `content` attribute. -/
def descriptionOf (d : Doc) : Option String :=
  match findMetaName d "description" with
  | some e => getAttr e "content"
  | none =>
    match findMetaProp d "og:description" with
    | some e => getAttr e "content"
    | none => none

/-- Keywords (lines 143-145): comma-split of the `keywords` meta content,
each entry stripped — no deduplication. -/
def keywordsOf (d : Doc) : List String :=
  match findMetaName d "keywords" with
  | some e => (splitComma ((getAttr e "content").getD "")).map stripStr
  | none => []

/-- Loop body of lines 153-156: resolve an `<img src>` against the page
URL and append it when not already present. -/
def imgStep (url : String) (acc : List (Option String)) (img : Elem) : List (Option String) :=
  match getAttr img "src" with
  | some s =>
    let u := urljoin url s
    if some u ∈ acc then acc else acc ++ [some u]
  | none => acc

/-- The `soup.find_all('img', src=True)[:10]` (line 153). -/
def imgElems (d : Doc) : List Elem :=
  (d.filter (fun e => e.tag == "img" && (getAttr e "src").isSome)).take 10

/-- Images (lines 148-158): start from the raw `og:image` content (stored
verbatim, not resolved), then append resolved `<img src>` URLs skipping
exact duplicates. -/
def imagesOf (d : Doc) (url : String) : List (Option String) :=
  let init :=
    match findMetaProp d "og:image" with
    | some e => [getAttr e "content"]
    | none => []
  (imgElems d).foldl (imgStep url) init

/-- Canonical URL (lines 89, 161-163): starts as the page URL and is
replaced by the `href` of a `rel=canonical` link when one exists. -/
def canonicalOf (d : Doc) (url : String) : Option String :=
  match d.find? (fun e => e.tag == "link" && getAttr e "rel" == some "canonical") with
  | some e => getAttr e "href"
  | none => some url

/-- Site name (lines 166-168): `og:site_name` meta content. -/
def siteNameOf (d : Doc) : Option String :=
  match findMetaProp d "og:site_name" with
  | some e => getAttr e "content"
  | none => none

/-- Language (lines 171-173): `lang` attribute of the `<html>` tag. -/
def languageOf (d : Doc) : Option String :=
  match findTag d "html" with
  | some e => getAttr e "lang"
  | none => none

/-- The `extract_metadata(soup, url)` (flask_app.py lines 80-175). -/
def extract_metadata (d : Doc) (url : String) : Metadata :=
  { title := titleOf d
    authors := authorsOf d
    publish_date := dateOf d
    description := descriptionOf d
    keywords := keywordsOf d
    images := imagesOf d url
    canonical_url := canonicalOf d url
    site_name := siteNameOf d
    language := languageOf d }

/-! ## Python values and result dictionaries -/

/-- The value shapes occurring in the result dictionaries of the source:
`None`, booleans, numbers, strings, lists of strings, lists that may
contain `None` entries, Python `set`s of strings (newspaper3k's
`article.images` is a set), and table data. -/
inductive PyVal where
  | pnone : PyVal
  | pbool : Bool → PyVal
  | pnum : Nat → PyVal
  | pstr : String → PyVal
  | pstrs : List String → PyVal
  | poptstrs : List (Option String) → PyVal
  | psetstrs : List String → PyVal
  | ptables : List (List (List String)) → PyVal
deriving DecidableEq, Repr

/-- A strategy result is a Python dict: keys with values, in insertion
order. -/
abbrev Result := List (String × PyVal)

/-- The `result.get(key)`. -/
def getField (r : Result) (k : String) : Option PyVal :=
  (r.find? (fun p => p.1 == k)).map (fun p => p.2)

/-- Python truthiness of an optional value (`dict.get` returns `None` for
a missing key). -/
def truthy : Option PyVal → Bool
  | none => false
  | some .pnone => false
  | some (.pbool b) => b
  | some (.pnum n) => n ≠ 0
  | some (.pstr s) => s ≠ ""
  | some (.pstrs l) => l ≠ []
  | some (.poptstrs l) => l ≠ []
  | some (.psetstrs l) => l ≠ []
  | some (.ptables l) => l ≠ []

/-- The `None`-aware string field value. -/
def optStr : Option String → PyVal
  | some s => .pstr s
  | none => .pnone

/-- The `metadata['images'][0] if metadata['images'] else None`. -/
def topImageVal : List (Option String) → PyVal
  | [] => .pnone
  | x :: _ => optStr x

/-- Whether a value can be encoded by `jsonify` (Python sets cannot). -/
def jsonEncodableB : PyVal → Bool
  | .psetstrs _ => false
  | _ => true

/-! ## Fetched pages.  A `Page` is the parsed form of one HTTP response
body, carrying the outputs of the external parsing collaborators that the
strategies consume: the element list for `extract_metadata`, the
readability transform of the body (`Document(...).summary()` text and
`short_title()`), the paragraph texts the content-selector scan visits,
`soup.get_text(separator=' ', strip=True)` of the stripped page, and the
extracted tables. -/

structure Page where
  doc : Doc
  rdText : String
  shortTitle : String
  scanParagraphs : List String
  fullText : String
  tables : List (List (List String))
deriving DecidableEq, Repr

/-- Rows of one table rendered as in lines 352-353: cells joined by
`' | '`, one row per line. -/
def tableRowsText (t : List (List String)) : String :=
  String.join (t.map (fun row => String.intercalate " | " row ++ "\n"))

/-- Worker for `tableText`, numbering tables from 1 (`f'\nTable {i+1}:\n'`). -/
def tablesTextAux : Nat → List (List (List String)) → String
  | _, [] => ""
  | i, t :: ts => "\nTable " ++ toString i ++ ":\n" ++ tableRowsText t ++ tablesTextAux (i + 1) ts

/-- The textual rendering of tables appended to the body text
(flask_app.py lines 348-354 and 435-441). -/
def tableText (ts : List (List (List String))) : String :=
  "\n\nTables:\n" ++ tablesTextAux 1 ts

/-- The body text computed by strategies 4 and 5 (lines 330-358 and
420-444): join the scan paragraphs longer than 20 characters, append the
table rendering when tables exist, and fall back to the whole-page text
when the result is under 200 characters. -/
def pageText (page : Page) : String :=
  let text0 := String.intercalate " " (page.scanParagraphs.filter (fun p => 20 < p.length))
  let text1 := if page.tables ≠ [] then text0 ++ tableText page.tables else text0
  if text1.length < 200 then page.fullText else text1

/-! ## Strategy 1: `scrape_with_newspaper` (lines 201-230).  The
newspaper3k library is the external collaborator; its per-article outputs
are the `ArticleData` input, `none` standing for a raised exception. -/

structure ArticleData where
  title : String
  authors : List String
  publish_date : Option String
  text : String
  top_image : String
  images : List String
  keywords : List String
  summary : String
deriving DecidableEq, Repr

/-- The dict literal of lines 215-227; `article.images` is a Python set. -/
def npDict (a : ArticleData) (url : String) : Result :=
  [("method", .pstr "newspaper3k"),
   ("title", .pstr a.title),
   ("authors", .pstrs a.authors),
   ("publish_date", optStr a.publish_date),
   ("text", .pstr (clean_text a.text)),
   ("top_image", .pstr a.top_image),
   ("images", .psetstrs a.images),
   ("keywords", .pstrs a.keywords),
   ("summary", .pstr a.summary),
   ("source", .pstr url),
   ("success", .pbool true)]

/-- The `scrape_with_newspaper` (lines 201-230): accept only when
`article.text and len(article.text) > 100`. -/
def scrape_with_newspaper (a? : Option ArticleData) (url : String) : Option Result :=
  match a? with
  | none => none
  | some a =>
    if a.text ≠ "" ∧ 100 < a.text.length then some (npDict a url) else none

/-! ## Strategy 2: `scrape_with_trafilatura` (lines 233-258). -/

structure TrafMeta where
  title : Option String
  author : Option String
  date : Option String
  image : Option String
  tags : List String
deriving DecidableEq, Repr

/-- The dict literal of lines 243-255. -/
def trafDict (t : String) (m? : Option TrafMeta) (url : String) : Result :=
  [("method", .pstr "trafilatura"),
   ("title", match m? with | some m => optStr m.title | none => .pnone),
   ("authors", .pstrs (match m? with
     | some m => match m.author with
       | some a => if a = "" then [] else [a]
       | none => []
     | none => [])),
   ("publish_date", match m? with | some m => optStr m.date | none => .pnone),
   ("text", .pstr (clean_text t)),
   ("top_image", match m? with | some m => optStr m.image | none => .pnone),
   ("images", .pstrs []),
   ("keywords", .pstrs (match m? with | some m => m.tags | none => [])),
   ("summary", .pstr (truncate500 t)),
   ("source", .pstr url),
   ("success", .pbool true)]

/-- The `scrape_with_trafilatura` (lines 233-258): `fetch_url`, `extract` and
`extract_metadata` are library calls whose outputs are the inputs here;
accept only when `text and len(text) > 100`. -/
def scrape_with_trafilatura (downloaded : Option String) (textE : Option String)
    (metaE : Option TrafMeta) (url : String) : Option Result :=
  match downloaded with
  | none => none
  | some dl =>
    if dl = "" then none
    else match textE with
      | some t => if t ≠ "" ∧ 100 < t.length then some (trafDict t metaE url) else none
      | none => none

/-! ## Strategy 3: `scrape_with_readability` (lines 261-291).  The fetch
outcome is `(status, page)`; note the source never checks the status. -/

/-- The dict literal of lines 276-288. -/
def readDict (page : Page) (url : String) : Result :=
  let m := extract_metadata page.doc url
  let t := page.rdText
  [("method", .pstr "readability"),
   ("title", .pstr (pyOr m.title page.shortTitle)),
   ("authors", .pstrs m.authors),
   ("publish_date", optStr m.publish_date),
   ("text", .pstr (clean_text t)),
   ("top_image", topImageVal m.images),
   ("images", .poptstrs m.images),
   ("keywords", .pstrs m.keywords),
   ("summary", .pstr (truncate500 t)),
   ("source", .pstr url),
   ("success", .pbool true)]

/-- The `scrape_with_readability` (lines 261-291): `requests.get` raises only
on network errors (`none`), not on HTTP error statuses, so the status is
ignored; accept only when `text and len(text) > 100`. -/
def scrape_with_readability (fetch : Option (Nat × Page)) (url : String) : Option Result :=
  match fetch with
  | none => none
  | some (_, page) =>
    if page.rdText ≠ "" ∧ 100 < page.rdText.length then some (readDict page url) else none

/-! ## Strategy 4: `scrape_with_beautifulsoup` (lines 294-378). -/

/-- The dict literal of lines 361-375. -/
def bsDict (page : Page) (url : String) : Result :=
  let m := extract_metadata page.doc url
  let t := pageText page
  [("method", .pstr "beautifulsoup"),
   ("title", optStr m.title),
   ("authors", .pstrs m.authors),
   ("publish_date", optStr m.publish_date),
   ("text", .pstr (clean_text t)),
   ("top_image", topImageVal m.images),
   ("images", .poptstrs m.images),
   ("keywords", .pstrs m.keywords),
   ("summary", .pstr (truncate500 t)),
   ("tables", .ptables page.tables),
   ("description", optStr m.description),
   ("source", .pstr url),
   ("success", .pbool true)]

/-- The `scrape_with_beautifulsoup` (lines 294-378): the only strategy that
calls `response.raise_for_status()`, so an HTTP error status (>= 400)
raises and yields `None`; with a deterministic fetch the three retry
attempts behave as one; accept only when `text and len(text) > 50`. -/
def scrape_with_beautifulsoup (fetch : Option (Nat × Page)) (url : String) : Option Result :=
  match fetch with
  | none => none
  | some (status, page) =>
    if 400 ≤ status then none
    else if pageText page ≠ "" ∧ 50 < (pageText page).length then some (bsDict page url)
    else none

/-! ## Strategy 5: `scrape_with_selenium` (lines 381-463).  The rendered
DOM (or `none` for any WebDriver failure) is the external input. -/

/-- The dict literal of lines 447-460 (no `description` key). -/
def selDict (page : Page) (url : String) : Result :=
  let m := extract_metadata page.doc url
  let t := pageText page
  [("method", .pstr "selenium"),
   ("title", optStr m.title),
   ("authors", .pstrs m.authors),
   ("publish_date", optStr m.publish_date),
   ("text", .pstr (clean_text t)),
   ("top_image", topImageVal m.images),
   ("images", .poptstrs m.images),
   ("keywords", .pstrs m.keywords),
   ("summary", .pstr (truncate500 t)),
   ("tables", .ptables page.tables),
   ("source", .pstr url),
   ("success", .pbool true)]

/-- The `scrape_with_selenium` (lines 381-463): accept only when
`len(text) > 50` (and `text` non-empty). -/
def scrape_with_selenium (rendered : Option Page) (url : String) : Option Result :=
  match rendered with
  | none => none
  | some page =>
    if pageText page ≠ "" ∧ 50 < (pageText page).length then some (selDict page url)
    else none

/-! ## Strategy 6: `scrape_raw` (lines 466-497). -/

/-- The dict literal of lines 481-494, with the `'Unknown Title'` /
`['Unknown']` placeholders of lines 483-484. -/
def rawDict (page : Page) (url : String) : Result :=
  let m := extract_metadata page.doc url
  let t := page.fullText
  [("method", .pstr "raw"),
   ("title", .pstr (pyOr m.title "Unknown Title")),
   ("authors", .pstrs (if m.authors = [] then ["Unknown"] else m.authors)),
   ("publish_date", optStr m.publish_date),
   ("text", .pstr (clean_text t)),
   ("top_image", topImageVal m.images),
   ("images", .poptstrs m.images),
   ("keywords", .pstrs m.keywords),
   ("summary", .pstr (truncate500 t)),
   ("tables", .ptables page.tables),
   ("source", .pstr url),
   ("success", .pbool true)]

/-- The `scrape_raw` (lines 466-497): unconditional result on any obtained
response — the status is never checked and there is no length gate; only
a raised fetch error (`none`) yields `None`. -/
def scrape_raw (fetch : Option (Nat × Page)) (url : String) : Option Result :=
  match fetch with
  | none => none
  | some (_, page) => some (rawDict page url)

/-! ## Pipeline Orchestrator (`scrape`, flask_app.py lines 499-562) -/

/-- The success predicate of line 534: `if result and result.get('success')`
— a non-`None`, non-empty dict whose `success` value is truthy. -/
def acceptedB : Option Result → Bool
  | none => false
  | some r => !r.isEmpty && truthy (getField r "success")

/-- The strategy loop of lines 531-536: invoke strategies in order,
breaking at the first accepted candidate; after an exhausted loop,
`result` holds the final strategy's return value.  The second component
counts how many strategies were invoked. -/
def tryStrategies : List (Option Result) → Nat → Option Result × Nat
  | [], n => (none, n)
  | o :: rest, n =>
    if acceptedB o then (o, n + 1)
    else
      match rest with
      | [] => (o, n + 1)
      | _ :: _ => tryStrategies rest (n + 1)

/-- All external inputs of one request: newspaper3k's parse, trafilatura's
download / extraction / metadata, the three direct HTTP fetches (status
and parsed page; `none` is a raised network error), and the selenium
rendered page. -/
structure World where
  news : Option ArticleData
  trafDl : Option String
  trafText : Option String
  trafMeta : Option TrafMeta
  fetchR : Option (Nat × Page)
  fetchB : Option (Nat × Page)
  selPage : Option Page
  fetchRaw : Option (Nat × Page)
deriving Repr

/-- The fixed strategy list of lines 522-529, in source order. -/
def strategyOutcomes (w : World) (url : String) : List (Option Result) :=
  [scrape_with_newspaper w.news url,
   scrape_with_trafilatura w.trafDl w.trafText w.trafMeta url,
   scrape_with_readability w.fetchR url,
   scrape_with_beautifulsoup w.fetchB url,
   scrape_with_selenium w.selPage url,
   scrape_raw w.fetchRaw url]

/-- The orchestrator run over the six strategies. -/
def pipelineRun (w : World) (url : String) : Option Result × Nat :=
  tryStrategies (strategyOutcomes w url) 0

/-- The `list(value) if isinstance(value, set)`. -/
def convertSets : PyVal → PyVal
  | .psetstrs l => .pstrs l
  | v => v

/-- The source's set-to-list conversion loop (lines 552-555): the
`return jsonify(result)` statement sits inside the loop body, so the loop
returns during its first iteration and only the first dict entry is ever
converted.  (As indented in the source the loop is even outside the `try`
block, which is a Python syntax error; this models the evident intent of
the control flow with the premature return kept.) -/
def serializeStep : List (String × PyVal) → List (String × PyVal)
  | [] => []
  | (k, v) :: rest => (k, convertSets v) :: rest

/-- The conversion the spec states as the intended contract: convert every
set-typed field of the whole result. -/
def serializeAll (fields : List (String × PyVal)) : List (String × PyVal) :=
  fields.map (fun kv => (kv.1, convertSets kv.2))

/-- An HTTP response: status code and JSON body (as a Python dict). -/
structure Resp where
  status : Nat
  body : List (String × PyVal)
deriving DecidableEq, Repr

/-- The `/scrape` handler (lines 499-562): URL presence check, URL
validation via `urlparse`, the cascading strategy loop, the 500 terminal
failure, and the success path with `scrape_time` / `timestamp` stamping
followed by the set-conversion step.  `elapsed` and `ts` stand for the
wall-clock values. The second component counts invoked strategies. -/
def scrape (url? : Option String) (w : World) (elapsed : Nat) (ts : String) : Resp × Nat :=
  match url? with
  | none => (⟨400, [("error", .pstr "URL parameter is required"), ("success", .pbool false)]⟩, 0)
  | some url =>
    let p := urlparse url
    if p.scheme = "" ∨ p.netloc = "" then
      (⟨400, [("error", .pstr "Invalid URL format"), ("success", .pbool false)]⟩, 0)
    else
      let rn := pipelineRun w url
      match rn.1 with
      | none => (⟨500, [("error", .pstr "All scraping methods failed"),
                        ("success", .pbool false), ("url", .pstr url)]⟩, rn.2)
      | some r =>
        let fields := r ++ [("scrape_time", .pnum elapsed), ("timestamp", .pstr ts)]
        (⟨200, serializeStep fields⟩, rn.2)

/-! ## Concrete fixtures used by witnesses and counterexamples -/

/-- A string of 120 repetitions of `'a'`: a body text above every length threshold and
fixed by `clean_text`. -/
def aLong : String := String.mk (List.replicate 120 'a')

/-- A successful newspaper3k parse. -/
def artGood : ArticleData :=
  { title := "T", authors := ["A"], publish_date := none, text := aLong,
    top_image := "", images := ["b", "a"], keywords := [], summary := "S" }

/-- A string of 21 repetitions of `"Login "`: 126 characters of pure boilerplate. -/
def loginText : String := String.join (List.replicate 21 "Login ")

/-- A newspaper3k parse whose raw text is long but entirely boilerplate. -/
def artBoiler : ArticleData :=
  { title := "T", authors := [], publish_date := none, text := loginText,
    top_image := "", images := [], keywords := [], summary := "" }

/-- A page with no elements whose readability text is long. -/
def pageLong : Page :=
  { doc := [], rdText := aLong, shortTitle := "ST", scanParagraphs := [],
    fullText := "", tables := [] }

/-- A page with no elements and a short full text (raw-strategy input). -/
def pagePlain : Page :=
  { doc := [], rdText := "", shortTitle := "", scanParagraphs := [],
    fullText := "hello world", tables := [] }

/-- A world where every external call fails. -/
def wAllFail : World :=
  { news := none, trafDl := none, trafText := none, trafMeta := none,
    fetchR := none, fetchB := none, selPage := none, fetchRaw := none }

/-- A world where newspaper3k succeeds and readability would succeed too. -/
def wNews : World :=
  { wAllFail with news := some artGood, fetchR := some (200, pageLong) }

/-- A world where only readability succeeds. -/
def wRead : World :=
  { wAllFail with fetchR := some (200, pageLong) }

/-! ## Field lemmas for the result dictionaries -/

theorem getField_npDict_success (a : ArticleData) (url : String) :
    getField (npDict a url) "success" = some (.pbool true) := rfl

theorem getField_npDict_method (a : ArticleData) (url : String) :
    getField (npDict a url) "method" = some (.pstr "newspaper3k") := rfl

theorem getField_npDict_text (a : ArticleData) (url : String) :
    getField (npDict a url) "text" = some (.pstr (clean_text a.text)) := rfl

theorem getField_trafDict_text (t : String) (m? : Option TrafMeta) (url : String) :
    getField (trafDict t m? url) "text" = some (.pstr (clean_text t)) := rfl

theorem getField_readDict_success (page : Page) (url : String) :
    getField (readDict page url) "success" = some (.pbool true) := rfl

theorem getField_readDict_method (page : Page) (url : String) :
    getField (readDict page url) "method" = some (.pstr "readability") := rfl

theorem getField_readDict_text (page : Page) (url : String) :
    getField (readDict page url) "text" = some (.pstr (clean_text page.rdText)) := rfl

theorem getField_bsDict_text (page : Page) (url : String) :
    getField (bsDict page url) "text" = some (.pstr (clean_text (pageText page))) := rfl

theorem getField_selDict_text (page : Page) (url : String) :
    getField (selDict page url) "text" = some (.pstr (clean_text (pageText page))) := rfl

theorem getField_rawDict_text (page : Page) (url : String) :
    getField (rawDict page url) "text" = some (.pstr (clean_text page.fullText)) := rfl

theorem getField_rawDict_success (page : Page) (url : String) :
    getField (rawDict page url) "success" = some (.pbool true) := rfl

theorem getField_rawDict_title (page : Page) (url : String) :
    getField (rawDict page url) "title" =
      some (.pstr (pyOr (extract_metadata page.doc url).title "Unknown Title")) := rfl

theorem getField_rawDict_authors (page : Page) (url : String) :
    getField (rawDict page url) "authors" =
      some (.pstrs (if (extract_metadata page.doc url).authors = [] then ["Unknown"]
                    else (extract_metadata page.doc url).authors)) := rfl

/-! ## Inversion lemmas: what an accepted strategy return implies -/

theorem np_inv {a? : Option ArticleData} {url : String} {r : Result}
    (h : scrape_with_newspaper a? url = some r) :
    ∃ a, a? = some a ∧ (a.text ≠ "" ∧ 100 < a.text.length) ∧ r = npDict a url := by
  cases a? with
  | none => simp [scrape_with_newspaper] at h
  | some a =>
    simp only [scrape_with_newspaper] at h
    split at h
    · exact ⟨a, rfl, by assumption, (Option.some.inj h).symm⟩
    · cases h

theorem traf_inv {dl t? : Option String} {m? : Option TrafMeta} {url : String} {r : Result}
    (h : scrape_with_trafilatura dl t? m? url = some r) :
    ∃ t, t? = some t ∧ (t ≠ "" ∧ 100 < t.length) ∧ r = trafDict t m? url := by
  cases dl with
  | none => simp [scrape_with_trafilatura] at h
  | some d =>
    simp only [scrape_with_trafilatura] at h
    split at h
    · cases h
    · cases t? with
      | none => cases h
      | some t =>
        simp only at h
        split at h
        · exact ⟨t, rfl, by assumption, (Option.some.inj h).symm⟩
        · cases h

theorem read_inv {fetch : Option (Nat × Page)} {url : String} {r : Result}
    (h : scrape_with_readability fetch url = some r) :
    ∃ st page, fetch = some (st, page) ∧ (page.rdText ≠ "" ∧ 100 < page.rdText.length) ∧
      r = readDict page url := by
  cases fetch with
  | none => simp [scrape_with_readability] at h
  | some sp =>
    obtain ⟨st, page⟩ := sp
    simp only [scrape_with_readability] at h
    split at h
    · exact ⟨st, page, rfl, by assumption, (Option.some.inj h).symm⟩
    · cases h

theorem bs_inv {fetch : Option (Nat × Page)} {url : String} {r : Result}
    (h : scrape_with_beautifulsoup fetch url = some r) :
    ∃ st page, fetch = some (st, page) ∧ st < 400 ∧
      (pageText page ≠ "" ∧ 50 < (pageText page).length) ∧ r = bsDict page url := by
  cases fetch with
  | none => simp [scrape_with_beautifulsoup] at h
  | some sp =>
    obtain ⟨st, page⟩ := sp
    simp only [scrape_with_beautifulsoup] at h
    split at h
    · cases h
    · split at h
      · exact ⟨st, page, rfl, by omega, by assumption, (Option.some.inj h).symm⟩
      · cases h

theorem sel_inv {p? : Option Page} {url : String} {r : Result}
    (h : scrape_with_selenium p? url = some r) :
    ∃ page, p? = some page ∧ (pageText page ≠ "" ∧ 50 < (pageText page).length) ∧
      r = selDict page url := by
  cases p? with
  | none => simp [scrape_with_selenium] at h
  | some page =>
    simp only [scrape_with_selenium] at h
    split at h
    · exact ⟨page, rfl, by assumption, (Option.some.inj h).symm⟩
    · cases h

theorem raw_inv {fetch : Option (Nat × Page)} {url : String} {r : Result}
    (h : scrape_raw fetch url = some r) :
    ∃ st page, fetch = some (st, page) ∧ r = rawDict page url := by
  cases fetch with
  | none => simp [scrape_raw] at h
  | some sp =>
    obtain ⟨st, page⟩ := sp
    simp only [scrape_raw] at h
    exact ⟨st, page, rfl, (Option.some.inj h).symm⟩

/-! ## Loop lemmas for the orchestrator -/

theorem tryStrategies_cons_acc {o : Option Result} {rest : List (Option Result)} {n : Nat}
    (h : acceptedB o = true) : tryStrategies (o :: rest) n = (o, n + 1) := by
  simp [tryStrategies, h]

theorem tryStrategies_cons_rej {o o' : Option Result} {rest : List (Option Result)} {n : Nat}
    (h : acceptedB o = false) :
    tryStrategies (o :: o' :: rest) n = tryStrategies (o' :: rest) (n + 1) := by
  simp [tryStrategies, h]

theorem acceptedB_npDict (a : ArticleData) (url : String) :
    acceptedB (some (npDict a url)) = true := rfl

theorem acceptedB_readDict (page : Page) (url : String) :
    acceptedB (some (readDict page url)) = true := rfl

theorem acceptedB_none : acceptedB none = false := rfl

/-! ## Claim theorems -/

/-- Claim C1: the Orchestrator tries the six strategies in the fixed order
newspaper3k, trafilatura, readability, beautifulsoup, selenium, raw, and
stops at the first non-null candidate with a truthy success flag: when
strategy 1 succeeds the pipeline returns its result after one invocation
and its `method` is `"newspaper3k"` (so strategy 3 is never invoked even
if it would succeed too); when strategies 1 and 2 fail and strategy 3
succeeds, the pipeline returns its result after exactly three
invocations. -/
theorem C1_earlier_strategy_wins (w : World) (url : String) :
    (∀ r1, scrape_with_newspaper w.news url = some r1 →
      pipelineRun w url = (some r1, 1) ∧
      getField r1 "method" = some (.pstr "newspaper3k")) ∧
    (∀ r3, scrape_with_newspaper w.news url = none →
      scrape_with_trafilatura w.trafDl w.trafText w.trafMeta url = none →
      scrape_with_readability w.fetchR url = some r3 →
      pipelineRun w url = (some r3, 3) ∧
      getField r3 "method" = some (.pstr "readability")) := by
  constructor
  · intro r1 h
    obtain ⟨a, _, _, hr⟩ := np_inv h
    subst hr
    refine ⟨?_, getField_npDict_method a url⟩
    unfold pipelineRun strategyOutcomes
    rw [h]
    exact tryStrategies_cons_acc (acceptedB_npDict a url)
  · intro r3 h1 h2 h3
    obtain ⟨st, page, _, _, hr⟩ := read_inv h3
    subst hr
    refine ⟨?_, getField_readDict_method page url⟩
    unfold pipelineRun strategyOutcomes
    rw [h1, h2, h3]
    rw [tryStrategies_cons_rej acceptedB_none, tryStrategies_cons_rej acceptedB_none]
    exact tryStrategies_cons_acc (acceptedB_readDict page url)

/-- Witness for C1 at concrete worlds: newspaper3k succeeding (with
readability also able to succeed) wins after one invocation; with
strategies 1-2 failing, readability wins after three invocations. -/
theorem C1_earlier_strategy_wins_witness :
    (pipelineRun wNews "https://ex.com/a" = (some (npDict artGood "https://ex.com/a"), 1) ∧
     getField (npDict artGood "https://ex.com/a") "method" = some (.pstr "newspaper3k")) ∧
    (pipelineRun wRead "https://ex.com/a" = (some (readDict pageLong "https://ex.com/a"), 3) ∧
     getField (readDict pageLong "https://ex.com/a") "method" = some (.pstr "readability")) :=
  ⟨(C1_earlier_strategy_wins wNews "https://ex.com/a").1 _ (by decide),
   (C1_earlier_strategy_wins wRead "https://ex.com/a").2 _ (by decide) (by decide) (by decide)⟩

/-- Claim C3: a `/scrape` request whose URL has no scheme or no netloc is
answered with HTTP 400, error `"Invalid URL format"` and `success: false`,
with zero strategies invoked (hence no strategy-level network call). -/
theorem C3_invalid_url_rejected (url : String) (w : World) (elapsed : Nat) (ts : String)
    (h : (urlparse url).scheme = "" ∨ (urlparse url).netloc = "") :
    scrape (some url) w elapsed ts =
      (⟨400, [("error", .pstr "Invalid URL format"), ("success", .pbool false)]⟩, 0) := by
  simp only [scrape]
  rw [if_pos h]

/-- Witness for C3 at the spec's scenario C input `url="not-a-url"`. -/
theorem C3_invalid_url_rejected_witness :
    ((urlparse "not-a-url").scheme = "" ∨ (urlparse "not-a-url").netloc = "") ∧
    scrape (some "not-a-url") wAllFail 0 "" =
      (⟨400, [("error", .pstr "Invalid URL format"), ("success", .pbool false)]⟩, 0) :=
  ⟨by decide, C3_invalid_url_rejected "not-a-url" wAllFail 0 "" (by decide)⟩

/-- Claim C4: whenever the raw strategy's fetch returns a response, the
strategy returns a result whose success flag is `True`; its title is
`"Unknown Title"` when the extracted title is absent (or empty, which is
falsy in Python) and its authors are `["Unknown"]` when no author was
extracted; it returns `None` exactly when the fetch itself raised. -/
theorem C4_raw_fallback_guarantee (fetch : Option (Nat × Page)) (url : String) :
    (∀ st page, fetch = some (st, page) →
      scrape_raw fetch url = some (rawDict page url) ∧
      getField (rawDict page url) "success" = some (.pbool true) ∧
      ((extract_metadata page.doc url).title = none ∨
       (extract_metadata page.doc url).title = some "" →
        getField (rawDict page url) "title" = some (.pstr "Unknown Title")) ∧
      ((extract_metadata page.doc url).authors = [] →
        getField (rawDict page url) "authors" = some (.pstrs ["Unknown"]))) ∧
    (scrape_raw fetch url = none ↔ fetch = none) := by
  constructor
  · intro st page hf
    subst hf
    refine ⟨rfl, getField_rawDict_success page url, ?_, ?_⟩
    · intro ht
      rw [getField_rawDict_title page url]
      rcases ht with ht | ht <;> rw [ht] <;> rfl
    · intro ha
      rw [getField_rawDict_authors page url, if_pos ha]
  · cases fetch with
    | none => simp [scrape_raw]
    | some sp => obtain ⟨st, page⟩ := sp; simp [scrape_raw]

/-- Witness for C4 at a fetched page with no metadata elements. -/
theorem C4_raw_fallback_guarantee_witness :
    scrape_raw (some (200, pagePlain)) "https://ex.com/a" =
      some (rawDict pagePlain "https://ex.com/a") ∧
    getField (rawDict pagePlain "https://ex.com/a") "success" = some (.pbool true) ∧
    getField (rawDict pagePlain "https://ex.com/a") "title" = some (.pstr "Unknown Title") ∧
    getField (rawDict pagePlain "https://ex.com/a") "authors" = some (.pstrs ["Unknown"]) := by
  have h := (C4_raw_fallback_guarantee (some (200, pagePlain)) "https://ex.com/a").1 200 pagePlain rfl
  exact ⟨h.1, h.2.1, h.2.2.1 (by decide), h.2.2.2 (by decide)⟩

/-- Counterexample to claim C2: newspaper3k accepts a 126-character raw
text made of boilerplate, yet the stored (normalized) `text` field of the
accepted result is the empty string — accepted results do not guarantee a
non-empty stored text exceeding the documented minimum. -/
theorem C2_counterexample :
    100 < artBoiler.text.length ∧
    scrape_with_newspaper (some artBoiler) "https://ex.com/a" =
      some (npDict artBoiler "https://ex.com/a") ∧
    getField (npDict artBoiler "https://ex.com/a") "text" = some (.pstr "") := by
  refine ⟨by decide, by decide, by decide⟩

/-- Claim C2 as amended: each strategy's documented minimum (100 for
strategies 1-3, 50 for strategies 4-5, none for strategy 6) is applied to
the raw extracted text before normalization, and the stored `text` field
is `clean_text` of that raw text — which may be shorter than the minimum
or even empty. -/
theorem C2_text_threshold_amended (url : String) :
    (∀ (a? : Option ArticleData) r, scrape_with_newspaper a? url = some r →
      ∃ a, a? = some a ∧ 100 < a.text.length ∧
        getField r "text" = some (.pstr (clean_text a.text))) ∧
    (∀ (dl t? : Option String) (m? : Option TrafMeta) r,
      scrape_with_trafilatura dl t? m? url = some r →
      ∃ t, t? = some t ∧ 100 < t.length ∧
        getField r "text" = some (.pstr (clean_text t))) ∧
    (∀ (f : Option (Nat × Page)) r, scrape_with_readability f url = some r →
      ∃ st page, f = some (st, page) ∧ 100 < page.rdText.length ∧
        getField r "text" = some (.pstr (clean_text page.rdText))) ∧
    (∀ (f : Option (Nat × Page)) r, scrape_with_beautifulsoup f url = some r →
      ∃ st page, f = some (st, page) ∧ 50 < (pageText page).length ∧
        getField r "text" = some (.pstr (clean_text (pageText page)))) ∧
    (∀ (p? : Option Page) r, scrape_with_selenium p? url = some r →
      ∃ page, p? = some page ∧ 50 < (pageText page).length ∧
        getField r "text" = some (.pstr (clean_text (pageText page)))) ∧
    (∀ (f : Option (Nat × Page)) r, scrape_raw f url = some r →
      ∃ st page, f = some (st, page) ∧
        getField r "text" = some (.pstr (clean_text page.fullText))) := by
  refine ⟨?_, ?_, ?_, ?_, ?_, ?_⟩
  · intro a? r h
    obtain ⟨a, ha, ⟨_, hlen⟩, hr⟩ := np_inv h
    exact ⟨a, ha, hlen, hr ▸ getField_npDict_text a url⟩
  · intro dl t? m? r h
    obtain ⟨t, ht, ⟨_, hlen⟩, hr⟩ := traf_inv h
    exact ⟨t, ht, hlen, hr ▸ getField_trafDict_text t m? url⟩
  · intro f r h
    obtain ⟨st, page, hf, ⟨_, hlen⟩, hr⟩ := read_inv h
    exact ⟨st, page, hf, hlen, hr ▸ getField_readDict_text page url⟩
  · intro f r h
    obtain ⟨st, page, hf, _, ⟨_, hlen⟩, hr⟩ := bs_inv h
    exact ⟨st, page, hf, hlen, hr ▸ getField_bsDict_text page url⟩
  · intro p? r h
    obtain ⟨page, hp, ⟨_, hlen⟩, hr⟩ := sel_inv h
    exact ⟨page, hp, hlen, hr ▸ getField_selDict_text page url⟩
  · intro f r h
    obtain ⟨st, page, hf, hr⟩ := raw_inv h
    exact ⟨st, page, hf, hr ▸ getField_rawDict_text page url⟩

/-- Witness for the amended C2 at a concrete accepted newspaper3k parse. -/
theorem C2_text_threshold_amended_witness :
    ∃ a, some artGood = some a ∧ 100 < a.text.length ∧
      getField (npDict artGood "https://ex.com/a") "text" =
        some (.pstr (clean_text a.text)) :=
  (C2_text_threshold_amended "https://ex.com/a").1 (some artGood)
    (npDict artGood "https://ex.com/a") (by decide)

/-- Claim C5 (code bug witnessed at a concrete run): on a successful
newspaper3k scrape the handler's 200 body still contains the `images`
field as a Python set, because the set-to-list conversion loop returns
from inside its first iteration; converting every field (the spec's
intended contract, `serializeAll`) would have made the whole body
JSON-encodable. -/
theorem C5_set_conversion_premature_return :
    (scrape (some "https://ex.com/a") wNews 1 "T").1.status = 200 ∧
    ("images", PyVal.psetstrs ["b", "a"]) ∈ (scrape (some "https://ex.com/a") wNews 1 "T").1.body ∧
    (scrape (some "https://ex.com/a") wNews 1 "T").1.body.any
      (fun kv => !jsonEncodableB kv.2) = true ∧
    (serializeAll ((scrape (some "https://ex.com/a") wNews 1 "T").1.body)).all
      (fun kv => jsonEncodableB kv.2) = true := by
  refine ⟨by decide, by decide, by decide, by decide⟩

/-- Counterexample to claim C9: the readability strategy's fetch of a 404
response with a long body yields an accepted result built from the error
page — a non-2xx status is not treated as a fetch failure there. -/
theorem C9_counterexample :
    scrape_with_readability (some (404, pageLong)) "https://ex.com/a" =
      some (readDict pageLong "https://ex.com/a") ∧
    getField (readDict pageLong "https://ex.com/a") "success" = some (.pbool true) := by
  refine ⟨by decide, by decide⟩

/-- Claim C9 as amended: only strategy 4 (beautifulsoup) treats an HTTP
error status as a failure (`raise_for_status`, statuses >= 400, yielding
`None`); a raised network error (`none`) yields `None` in strategies 3, 4
and 6; strategies 3 (readability) and 6 (raw) ignore the status code
entirely and will build a result from an error page's body. -/
theorem C9_fetch_error_amended :
    (∀ (status : Nat) (page : Page) (url : String), 400 ≤ status →
      scrape_with_beautifulsoup (some (status, page)) url = none) ∧
    (∀ url : String, scrape_with_beautifulsoup none url = none ∧
      scrape_with_readability none url = none ∧ scrape_raw none url = none) ∧
    (∀ (s1 s2 : Nat) (page : Page) (url : String),
      scrape_with_readability (some (s1, page)) url =
        scrape_with_readability (some (s2, page)) url ∧
      scrape_raw (some (s1, page)) url = scrape_raw (some (s2, page)) url) := by
  refine ⟨?_, ?_, ?_⟩
  · intro status page url h
    simp [scrape_with_beautifulsoup, h]
  · intro url
    exact ⟨rfl, rfl, rfl⟩
  · intro s1 s2 page url
    exact ⟨rfl, rfl⟩

/-- Witness for the amended C9: a 404 makes beautifulsoup return `None`,
while readability treats a 404 and a 200 of the same page identically. -/
theorem C9_fetch_error_amended_witness :
    (400 ≤ 404 ∧ scrape_with_beautifulsoup (some (404, pageLong)) "https://ex.com/a" = none) ∧
    scrape_with_readability (some (404, pageLong)) "https://ex.com/a" =
      scrape_with_readability (some (200, pageLong)) "https://ex.com/a" :=
  ⟨⟨by decide, C9_fetch_error_amended.1 404 pageLong "https://ex.com/a" (by decide)⟩,
   (C9_fetch_error_amended.2.2 404 200 pageLong "https://ex.com/a").1⟩

/-- A document whose `og:title` meta exists with empty content while a
later `<title>` element carries a non-empty value. -/
def docTitleCex : Doc :=
  [⟨"meta", [("property", "og:title"), ("content", "")], ""⟩,
   ⟨"title", [], "Real"⟩]

/-- Counterexample to claim C10: the title loop breaks at the first
candidate element that exists, not the first non-empty value — with an
empty-content `og:title` and a `<title>` saying `"Real"`, the stored
title is `some ""`: neither the first non-empty value nor null. -/
theorem C10_counterexample :
    (extract_metadata docTitleCex "https://ex.com/").title = some "" ∧
    elemVal ⟨"title", [], "Real"⟩ = "Real" ∧
    (extract_metadata docTitleCex "https://ex.com/").title ≠ some "Real" ∧
    (extract_metadata docTitleCex "https://ex.com/").title ≠ none := by
  refine ⟨by decide, by decide, by decide, by decide⟩

/-- Claim C10 as amended: the extractor stops at the first title selector
that matches an element (in the order `og:title` meta, `twitter:title`
meta, first `<h1>`, `<title>`); the stored title is that element's
`content` attribute when non-empty and otherwise its stripped text (which
may be empty); the title is null exactly when no selector matches any
element. -/
theorem C10_title_priority_amended (d : Doc) (url : String) :
    (∀ e, findMetaProp d "og:title" = some e →
      (extract_metadata d url).title = some (elemVal e)) ∧
    (findMetaProp d "og:title" = none →
      ∀ e, findMetaName d "twitter:title" = some e →
      (extract_metadata d url).title = some (elemVal e)) ∧
    (findMetaProp d "og:title" = none → findMetaName d "twitter:title" = none →
      ∀ e, findTag d "h1" = some e →
      (extract_metadata d url).title = some (elemVal e)) ∧
    (findMetaProp d "og:title" = none → findMetaName d "twitter:title" = none →
      findTag d "h1" = none → ∀ e, findTag d "title" = some e →
      (extract_metadata d url).title = some (elemVal e)) ∧
    ((extract_metadata d url).title = none ↔
      (findMetaProp d "og:title" = none ∧ findMetaName d "twitter:title" = none ∧
       findTag d "h1" = none ∧ findTag d "title" = none)) := by
  refine ⟨?_, ?_, ?_, ?_, ?_⟩
  · intro e he
    simp [extract_metadata, titleOf, titleCandidates, he]
  · intro h1 e he
    simp [extract_metadata, titleOf, titleCandidates, h1, he]
  · intro h1 h2 e he
    simp [extract_metadata, titleOf, titleCandidates, h1, h2, he]
  · intro h1 h2 h3 e he
    simp [extract_metadata, titleOf, titleCandidates, h1, h2, h3, he]
  · cases hog : findMetaProp d "og:title" <;>
      cases htw : findMetaName d "twitter:title" <;>
      cases hh1 : findTag d "h1" <;>
      cases htt : findTag d "title" <;>
      simp [extract_metadata, titleOf, titleCandidates, hog, htw, hh1, htt]

/-- Witness for the amended C10 at a document with a contentful
`og:title`. -/
theorem C10_title_priority_amended_witness :
    (extract_metadata [⟨"meta", [("property", "og:title"), ("content", "X")], ""⟩]
      "https://ex.com/").title =
      some (elemVal ⟨"meta", [("property", "og:title"), ("content", "X")], ""⟩) :=
  (C10_title_priority_amended
    [⟨"meta", [("property", "og:title"), ("content", "X")], ""⟩] "https://ex.com/").1
    ⟨"meta", [("property", "og:title"), ("content", "X")], ""⟩ (by decide)

/-! ## Nodup machinery for C7 -/

theorem foldl_nodup_pres {α β : Type} [DecidableEq α] (f : List α → β → List α)
    (hf : ∀ acc x, acc.Nodup → (f acc x).Nodup) :
    ∀ (l : List β) (acc : List α), acc.Nodup → (l.foldl f acc).Nodup := by
  intro l
  induction l with
  | nil => intro acc h; exact h
  | cons x xs ih => intro acc h; exact ih (f acc x) (hf acc x h)

theorem nodup_append_new {α : Type} [DecidableEq α] {acc : List α} {a : α}
    (h : acc.Nodup) (ha : a ∉ acc) : (acc ++ [a]).Nodup := by
  rw [List.nodup_append]
  refine ⟨h, List.nodup_singleton a, ?_⟩
  intro x hx hxa
  simp only [List.mem_singleton] at hxa
  subst hxa
  exact ha hx

theorem authorStep_nodup (acc : List String) (e : Elem) (h : acc.Nodup) :
    (authorStep acc e).Nodup := by
  simp only [authorStep]
  split
  · next hc => exact nodup_append_new h hc.2
  · exact h

theorem imgStep_nodup (url : String) (acc : List (Option String)) (e : Elem)
    (h : acc.Nodup) : (imgStep url acc e).Nodup := by
  simp only [imgStep]
  split
  · split
    · exact h
    · next hni => exact nodup_append_new h hni
  · exact h

/-- A document whose `keywords` meta content is `"a, a"`. -/
def docKw : Doc := [⟨"meta", [("name", "keywords"), ("content", "a, a")], ""⟩]

/-- Counterexample to claim C7: keywords are the comma-split of the
`keywords` meta content with entries stripped but never deduplicated, so
content `"a, a"` yields the duplicate list `["a", "a"]`. -/
theorem C7_counterexample :
    (extract_metadata docKw "https://ex.com/").keywords = ["a", "a"] ∧
    ¬ (extract_metadata docKw "https://ex.com/").keywords.Nodup := by
  refine ⟨by decide, by decide⟩

/-- Claim C7 as amended: for every document and page URL, the extracted
`authors` and `images` sequences contain no duplicate entries (exact
equality), regardless of how many selectors match; `keywords` has no such
guarantee. -/
theorem C7_dedup_amended (d : Doc) (url : String) :
    (extract_metadata d url).authors.Nodup ∧ (extract_metadata d url).images.Nodup := by
  constructor
  · show (authorsOf d).Nodup
    exact foldl_nodup_pres authorStep authorStep_nodup (authorElems d) [] List.nodup_nil
  · show (imagesOf d url).Nodup
    unfold imagesOf
    apply foldl_nodup_pres (imgStep url) (imgStep_nodup url)
    split
    · exact List.nodup_singleton _
    · exact List.nodup_nil

/-- Where entries of the image fold come from: the initial accumulator or
a resolved `<img src>` of the traversed list. -/
theorem imgStep_fold_mem (url : String) :
    ∀ (l : List Elem) (acc : List (Option String)) (x : Option String),
      x ∈ l.foldl (imgStep url) acc →
      x ∈ acc ∨ ∃ e ∈ l, ∃ s, getAttr e "src" = some s ∧ x = some (urljoin url s) := by
  intro l
  induction l with
  | nil => intro acc x hx; exact Or.inl hx
  | cons e l' ih =>
    intro acc x hx
    rw [List.foldl_cons] at hx
    rcases ih (imgStep url acc e) x hx with hin | ⟨e', he', s, hs, hu⟩
    · rcases hsrc : getAttr e "src" with _ | s
      · simp only [imgStep, hsrc] at hin
        exact Or.inl hin
      · simp only [imgStep, hsrc] at hin
        by_cases hmem : some (urljoin url s) ∈ acc
        · rw [if_pos hmem] at hin
          exact Or.inl hin
        · rw [if_neg hmem] at hin
          rcases List.mem_append.mp hin with hin | hin
          · exact Or.inl hin
          · simp only [List.mem_singleton] at hin
            exact Or.inr ⟨e, List.mem_cons_self e l', s, hsrc, hin⟩
    · exact Or.inr ⟨e', List.mem_cons_of_mem e he', s, hs, hu⟩

/-- The scenario-D document: one relative `<img src>`. -/
def docImgD : Doc := [⟨"img", [("src", "/pics/a.jpg")], ""⟩]

/-- A document whose `og:image` meta holds a relative reference. -/
def docOgRel : Doc := [⟨"meta", [("property", "og:image"), ("content", "/og.jpg")], ""⟩]

/-- Counterexample to claim C8: the `og:image` meta value is stored
verbatim, not resolved against the page URL — for content `/og.jpg` on
page `https://ex.com/article` the stored entry is the relative
`/og.jpg` (it has no scheme), and the resolved absolute URL is absent. -/
theorem C8_counterexample :
    (extract_metadata docOgRel "https://ex.com/article").images = [some "/og.jpg"] ∧
    some "https://ex.com/og.jpg" ∉ (extract_metadata docOgRel "https://ex.com/article").images ∧
    (urlparse "/og.jpg").scheme = "" ∧
    urljoin "https://ex.com/article" "/og.jpg" = "https://ex.com/og.jpg" := by
  refine ⟨by decide, by decide, by decide, by decide⟩

/-- Claim C8 as amended: every `images` entry is either the verbatim
`og:image` meta content (which may be relative or absent) or the
`urljoin` resolution of some `<img src>` against the page URL; in the
spec's scenario D the relative `<img src="/pics/a.jpg">` on page
`https://ex.com/article` is stored as the absolute
`https://ex.com/pics/a.jpg`. -/
theorem C8_images_resolution_amended :
    (∀ (d : Doc) (url : String) (x : Option String),
      x ∈ (extract_metadata d url).images →
      (∃ e, findMetaProp d "og:image" = some e ∧ x = getAttr e "content") ∨
      (∃ e ∈ d, ∃ s, getAttr e "src" = some s ∧ x = some (urljoin url s))) ∧
    (extract_metadata docImgD "https://ex.com/article").images =
      [some "https://ex.com/pics/a.jpg"] ∧
    urlparse "https://ex.com/pics/a.jpg" = ⟨"https", "ex.com", "/pics/a.jpg"⟩ := by
  refine ⟨?_, by decide, by decide⟩
  intro d url x hx
  have hx' : x ∈ (imgElems d).foldl (imgStep url)
      (match findMetaProp d "og:image" with
       | some e => [getAttr e "content"]
       | none => []) := hx
  rcases imgStep_fold_mem url (imgElems d) _ x hx' with hin | ⟨e, he, s, hs, hu⟩
  · rcases hog : findMetaProp d "og:image" with _ | e
    · rw [hog] at hin
      cases hin
    · rw [hog] at hin
      simp only [List.mem_singleton] at hin
      exact Or.inl ⟨e, rfl, hin⟩
  · refine Or.inr ⟨e, ?_, s, hs, hu⟩
    have h1 : e ∈ d.filter (fun e => e.tag == "img" && (getAttr e "src").isSome) :=
      List.take_subset 10 _ he
    exact (List.mem_filter.mp h1).1

/-- Witness for the amended C8: the scenario-D entry originates from the
`<img src>` resolved with `urljoin`. -/
theorem C8_images_resolution_amended_witness :
    (∃ e, findMetaProp docImgD "og:image" = some e ∧
      some "https://ex.com/pics/a.jpg" = getAttr e "content") ∨
    (∃ e ∈ docImgD, ∃ s, getAttr e "src" = some s ∧
      some "https://ex.com/pics/a.jpg" = some (urljoin "https://ex.com/article" s)) :=
  C8_images_resolution_amended.1 docImgD "https://ex.com/article"
    (some "https://ex.com/pics/a.jpg") (by decide)

/-! ## Idempotence analysis of the Text Normalizer (claim C6) -/

theorem matchCI_append {p t : List Char} (r : List Char) (h : matchCI p t = true) :
    matchCI p (t ++ r) = true := by
  induction p generalizing t with
  | nil => rfl
  | cons pc ps ih =>
    cases t with
    | nil => simp [matchCI] at h
    | cons c cs =>
      simp only [matchCI, Bool.and_eq_true] at h
      simp only [List.cons_append, matchCI, Bool.and_eq_true]
      exact ⟨h.1, ih h.2⟩

theorem firstPhraseAt_isSome_of_match {p t : List Char} (hp : p ∈ phraseLists)
    (h : matchCI p t = true) : (firstPhraseAt t).isSome = true := by
  unfold firstPhraseAt
  rcases hfind : phraseLists.find? (fun q => matchCI q t) with _ | q
  · have := List.find?_eq_none.mp hfind p hp
    rw [h] at this
    exact absurd rfl this
  · rfl

theorem not_contains_suffix {z t : List Char} (hz : containsPhraseB z = false)
    (ht : t <:+ z) : firstPhraseAt t = none := by
  unfold containsPhraseB at hz
  rw [List.any_eq_false] at hz
  have hmem := hz t ((List.mem_tails t z).mpr ht)
  rcases hp : firstPhraseAt t with _ | p
  · rfl
  · rw [hp] at hmem
    exact absurd rfl hmem

theorem containsPhraseB_mono {z w : List Char} (hz : containsPhraseB z = false)
    (hw : w <:+: z) : containsPhraseB w = false := by
  by_contra hcontra
  rw [Bool.not_eq_false] at hcontra
  unfold containsPhraseB at hcontra
  rw [List.any_eq_true] at hcontra
  obtain ⟨t, htmem, hsome⟩ := hcontra
  have ht : t <:+ w := (List.mem_tails t w).mp htmem
  rcases hfp : firstPhraseAt t with _ | p
  · rw [hfp] at hsome
    cases hsome
  · have hfp' : phraseLists.find? (fun q => matchCI q t) = some p := hfp
    have hpmem : p ∈ phraseLists := List.mem_of_find?_eq_some hfp'
    have hmatch : matchCI p t = true := by simpa using List.find?_some hfp'
    obtain ⟨w', hw'⟩ := ht
    obtain ⟨u, v, huv⟩ := hw
    have htz : t ++ v <:+ z := by
      refine ⟨u ++ w', ?_⟩
      rw [← huv, ← hw']
      simp [List.append_assoc]
    have h2 : firstPhraseAt (t ++ v) = none := not_contains_suffix hz htz
    have h3 : (firstPhraseAt (t ++ v)).isSome = true :=
      firstPhraseAt_isSome_of_match hpmem (matchCI_append v hmatch)
    rw [h2] at h3
    cases h3

theorem removePhrasesAux_no_phrase :
    ∀ (fuel : Nat) (l : List Char), containsPhraseB l = false →
      removePhrasesAux fuel l = l := by
  intro fuel
  induction fuel with
  | zero => intro l _; cases l <;> rfl
  | succ fuel ih =>
    intro l h
    cases l with
    | nil => rfl
    | cons c cs =>
      have hfp : firstPhraseAt (c :: cs) = none :=
        not_contains_suffix h (List.suffix_refl _)
      have hcs : containsPhraseB cs = false :=
        containsPhraseB_mono h (List.suffix_cons c cs).isInfix
      simp only [removePhrasesAux, hfp]
      rw [ih cs hcs]

theorem removePhrases_no_phrase {l : List Char} (h : containsPhraseB l = false) :
    removePhrases l = l :=
  removePhrasesAux_no_phrase l.length l h

/-- Every whitespace character of the list is a plain space. -/
def wsAllSpace (z : List Char) : Prop :=
  ∀ c ∈ z, isSpaceChar c = true → c = ' '

/-- No two adjacent characters are both spaces. -/
def noTwoSpaces (z : List Char) : Prop :=
  z.Chain' (fun a b => ¬(a = ' ' ∧ b = ' '))

theorem collapseAux_wsAllSpace :
    ∀ (l : List Char) (b : Bool), wsAllSpace (collapseAux b l) := by
  intro l
  induction l with
  | nil => intro b c hc _; simp [collapseAux] at hc
  | cons c cs ih =>
    intro b d hd hs
    by_cases hc : isSpaceChar c = true
    · cases b with
      | true =>
        simp only [collapseAux, hc, if_true] at hd
        exact ih true d hd hs
      | false =>
        simp only [collapseAux, hc, if_true] at hd
        rcases List.mem_cons.mp hd with hdeq | hdmem
        · exact hdeq
        · exact ih true d hdmem hs
    · simp [collapseAux, hc] at hd
      rcases hd with hdeq | hdmem
      · subst hdeq
        exact absurd hs hc
      · exact ih false d hdmem hs

theorem collapseAux_true_head :
    ∀ (l : List Char) (d : Char), (collapseAux true l).head? = some d →
      isSpaceChar d = false := by
  intro l
  induction l with
  | nil => intro d h; simp [collapseAux] at h
  | cons c cs ih =>
    intro d h
    by_cases hc : isSpaceChar c = true
    · simp only [collapseAux, hc, if_true] at h
      exact ih d h
    · simp [collapseAux, hc] at h
      subst h
      simpa using hc

theorem collapseAux_noTwoSpaces :
    ∀ (l : List Char) (b : Bool), noTwoSpaces (collapseAux b l) := by
  intro l
  induction l with
  | nil => intro b; simp [collapseAux, noTwoSpaces]
  | cons c cs ih =>
    intro b
    by_cases hc : isSpaceChar c = true
    · cases b with
      | true =>
        simp only [collapseAux, hc, if_true]
        exact ih true
      | false =>
        simp only [collapseAux, hc, if_true]
        show (' ' :: collapseAux true cs).Chain' (fun a b => ¬(a = ' ' ∧ b = ' '))
        rw [List.chain'_cons']
        refine ⟨?_, ih true⟩
        intro y hy hcontra
        have hws : isSpaceChar y = false :=
          collapseAux_true_head cs y (by simpa using hy)
        rw [hcontra.2] at hws
        simp [isSpaceChar] at hws
    · simp only [collapseAux, hc]
      show (c :: collapseAux false cs).Chain' (fun a b => ¬(a = ' ' ∧ b = ' '))
      rw [List.chain'_cons']
      refine ⟨?_, ih false⟩
      intro y _ hcontra
      rw [hcontra.1] at hc
      simp [isSpaceChar] at hc

theorem collapse_fixed :
    ∀ z : List Char, wsAllSpace z → noTwoSpaces z →
      collapseAux false z = z ∧
      ((∀ d, z.head? = some d → d ≠ ' ') → collapseAux true z = z) := by
  intro z
  induction z with
  | nil => exact fun _ _ => ⟨rfl, fun _ => rfl⟩
  | cons c cs ih =>
    intro hws hnts
    have hws' : wsAllSpace cs := fun x hx => hws x (List.mem_cons_of_mem c hx)
    have hpair := (List.chain'_cons'.mp hnts)
    obtain ⟨ihf, iht⟩ := ih hws' hpair.2
    constructor
    · by_cases hc : isSpaceChar c = true
      · have hceq : c = ' ' := hws c (List.mem_cons_self c cs) hc
        simp only [collapseAux, hc, if_true]
        show ' ' :: collapseAux true cs = c :: cs
        rw [hceq]
        congr 1
        apply iht
        intro d hd hdeq
        have hmem : d ∈ cs.head? := by rw [hd]; rfl
        exact hpair.1 d hmem ⟨hceq, hdeq⟩
      · simp only [collapseAux, hc]
        rw [ihf]
        rfl
    · intro hhead
      by_cases hc : isSpaceChar c = true
      · have hceq : c = ' ' := hws c (List.mem_cons_self c cs) hc
        exact absurd hceq (hhead c rfl)
      · simp only [collapseAux, hc]
        rw [ihf]
        rfl

theorem wsAllSpace_mono {z w : List Char} (hz : wsAllSpace z) (hw : w <:+: z) :
    wsAllSpace w :=
  fun c hc => hz c (hw.subset hc)

theorem noTwoSpaces_mono {z w : List Char} (hz : noTwoSpaces z) (hw : w <:+: z) :
    noTwoSpaces w := by
  obtain ⟨u, v, huv⟩ := hw
  rw [noTwoSpaces] at hz ⊢
  rw [← huv, List.append_assoc] at hz
  exact hz.right_of_append.left_of_append

theorem dropTrailWs_prefixOf (l : List Char) : dropTrailWs l <+: l := by
  unfold dropTrailWs
  have h1 : l.reverse.dropWhile isSpaceChar <:+ l.reverse := List.dropWhile_suffix isSpaceChar
  have h2 := List.reverse_prefix.mpr h1
  rwa [List.reverse_reverse] at h2

theorem stripChars_within (l : List Char) : stripChars l <:+: l := by
  unfold stripChars
  exact (dropTrailWs_prefixOf _).isInfix.trans (List.dropWhile_suffix isSpaceChar).isInfix

theorem dropWhile_head_not {p : Char → Bool} {l : List Char} {e : Char} {m : List Char}
    (h : l.dropWhile p = e :: m) : p e = false := by
  induction l with
  | nil => cases h
  | cons c cs ih =>
    by_cases hc : p c = true
    · rw [List.dropWhile_cons, if_pos hc] at h
      exact ih h
    · rw [List.dropWhile_cons, if_neg hc] at h
      cases h
      simpa using hc

theorem dropWhile_dropWhile (p : Char → Bool) (l : List Char) :
    (l.dropWhile p).dropWhile p = l.dropWhile p := by
  rcases h : l.dropWhile p with _ | ⟨e, m⟩
  · rfl
  · have he : p e = false := dropWhile_head_not h
    rw [List.dropWhile_cons, he]
    simp

theorem dropTrailWs_dropTrailWs (l : List Char) :
    dropTrailWs (dropTrailWs l) = dropTrailWs l := by
  unfold dropTrailWs
  rw [List.reverse_reverse, dropWhile_dropWhile]

theorem dropWhile_of_stripChars (l : List Char) :
    (stripChars l).dropWhile isSpaceChar = stripChars l := by
  rcases h : stripChars l with _ | ⟨e, m⟩
  · rfl
  · have hp : stripChars l <+: l.dropWhile isSpaceChar := dropTrailWs_prefixOf _
    rw [h] at hp
    rcases h2 : l.dropWhile isSpaceChar with _ | ⟨e', m'⟩
    · rw [h2] at hp
      simp at hp
    · rw [h2] at hp
      have hee : e = e' := (List.cons_prefix_cons.mp hp).1
      have he' : isSpaceChar e' = false := dropWhile_head_not h2
      rw [List.dropWhile_cons, hee, he']
      simp

theorem stripChars_idem (l : List Char) : stripChars (stripChars l) = stripChars l := by
  show dropTrailWs ((stripChars l).dropWhile isSpaceChar) = stripChars l
  rw [dropWhile_of_stripChars]
  show dropTrailWs (dropTrailWs (l.dropWhile isSpaceChar)) = stripChars l
  rw [dropTrailWs_dropTrailWs]
  rfl

/-- Counterexample to claim C6: `clean_text` is not idempotent — removing
the boilerplate word in `"a Login b"` leaves the two spaces that
surrounded it, and only a second application collapses them. -/
theorem C6_counterexample :
    clean_text "a Login b" = "a  b" ∧
    clean_text (clean_text "a Login b") = "a b" ∧
    clean_text (clean_text "a Login b") ≠ clean_text "a Login b" := by
  refine ⟨by decide, by decide, by decide⟩

/-- Claim C6 as amended: `clean_text` is idempotent on every string whose
whitespace-collapsed form contains no boilerplate phrase (the phrase
removal step is then the identity and cannot create new whitespace runs
or new phrase occurrences); in general a phrase removal can leave two
adjacent spaces, so a second application may differ. -/
theorem C6_normalize_idempotent_amended (s : String)
    (h : containsPhraseB (collapseList s.toList) = false) :
    clean_text (clean_text s) = clean_text s := by
  by_cases hs : s = ""
  · subst hs
    rfl
  · have hrm : removePhrases (collapseList s.toList) = collapseList s.toList :=
      removePhrases_no_phrase h
    have hct : clean_text s = String.mk (stripChars (collapseList s.toList)) := by
      simp only [clean_text, if_neg hs, hrm]
    rw [hct]
    by_cases hynil : String.mk (stripChars (collapseList s.toList)) = ""
    · rw [hynil]
      rfl
    · have hinf : stripChars (collapseList s.toList) <:+: collapseList s.toList :=
        stripChars_within _
      have hws : wsAllSpace (collapseList s.toList) :=
        collapseAux_wsAllSpace s.toList false
      have hnts : noTwoSpaces (collapseList s.toList) :=
        collapseAux_noTwoSpaces s.toList false
      have hcolly :
          collapseList (String.mk (stripChars (collapseList s.toList))).toList =
            stripChars (collapseList s.toList) := by
        show collapseAux false (stripChars (collapseList s.toList)) = _
        exact (collapse_fixed _ (wsAllSpace_mono hws hinf) (noTwoSpaces_mono hnts hinf)).1
      have hcy : containsPhraseB (stripChars (collapseList s.toList)) = false :=
        containsPhraseB_mono h hinf
      have hrmy : removePhrases (stripChars (collapseList s.toList)) =
          stripChars (collapseList s.toList) := removePhrases_no_phrase hcy
      have hstry : stripChars (stripChars (collapseList s.toList)) =
          stripChars (collapseList s.toList) := stripChars_idem _
      simp only [clean_text, if_neg hynil, hcolly, hrmy, hstry]

/-- Witness for the amended C6 at a phrase-free string with repeated
whitespace. -/
theorem C6_normalize_idempotent_amended_witness :
    containsPhraseB (collapseList ("a  b c").toList) = false ∧
    clean_text (clean_text "a  b c") = clean_text "a  b c" :=
  ⟨by decide, C6_normalize_idempotent_amended "a  b c" (by decide)⟩
